import Mathlib

/-!
Verification of the responsive-ajax client library.

The JavaScript source (src/ajax.js) is shallowly embedded below.  JavaScript
values that flow through the public API (the optional `data` and `headers`
arguments) are modelled by `JsArg`; scalar values by `JsPrim`; the possibly
array-valued fields of a query object by `QVal`.  The XMLHttpRequest that a
call configures and sends is captured as a pure `XhrState` record: the method
and url passed to `open`, the request headers that were set (in order), and
the entity passed to `send` (if any).  Host builtins used by the source
(`encodeURIComponent`, `JSON.stringify`, `String(...)` coercion,
`String.prototype.toUpperCase`) are modelled from their standard semantics.
-/

namespace Ajax

/-- A JavaScript primitive (non-object) value. -/
inductive JsPrim where
  | str (s : String)
  | num (n : Int)
  | bool (b : Bool)
  | null
  | undefined
deriving DecidableEq

/-- The JavaScript `String(x)` coercion on primitives: `String(null)` is the
text "null" and `String(undefined)` is the text "undefined". -/
def JsPrim.jsString : JsPrim → String
  | .str s => s
  | .num n => toString n
  | .bool b => if b then "true" else "false"
  | .null => "null"
  | .undefined => "undefined"

/-- The value stored under one key of a query object: a scalar or an array of
scalars (`Array.isArray` distinguishes the two in `stringifyQuery`). -/
inductive QVal where
  | scalar (p : JsPrim)
  | arr (l : List JsPrim)
deriving DecidableEq

/-- JavaScript string coercion of a `QVal` (arrays stringify by joining their
elements with commas); used when an object lands in a header-value position. -/
def QVal.jsString : QVal → String
  | .scalar p => p.jsString
  | .arr l => String.intercalate "," (l.map JsPrim.jsString)

/-- A JavaScript value appearing in an optional argument position: undefined
(the argument was omitted), null, a primitive, or a plain object modelled as
its own enumerable key/value pairs in insertion order. -/
inductive JsArg where
  | undefined
  | null
  | prim (p : JsPrim)
  | obj (l : List (String × QVal))
deriving DecidableEq

/-- The test in the source that data is neither null nor of a non-object typeof. -/
def JsArg.isNonNullObject : JsArg → Bool
  | .obj _ => true
  | _ => false

/-! ### encodeURIComponent

Modelled from the ECMAScript specification: characters in the unreserved set
`A-Z a-z 0-9 - _ . ! ~ * ( )` and the apostrophe are kept, every other
character is replaced by the percent-encoded bytes of its UTF-8 encoding,
with upper-case hexadecimal digits. -/

/-- Characters `encodeURIComponent` leaves unescaped, by code point. -/
def isUnreservedChar (c : Char) : Bool :=
  (65 ≤ c.toNat && c.toNat ≤ 90) || (97 ≤ c.toNat && c.toNat ≤ 122) ||
    (48 ≤ c.toNat && c.toNat ≤ 57) || c.toNat == 45 || c.toNat == 95 ||
    c.toNat == 46 || c.toNat == 33 || c.toNat == 126 || c.toNat == 42 ||
    c.toNat == 39 || c.toNat == 40 || c.toNat == 41

/-- The UTF-8 encoding of a character, as a list of byte values. -/
def utf8Bytes (c : Char) : List Nat :=
  if c.toNat < 128 then [c.toNat]
  else if c.toNat < 2048 then [192 + c.toNat / 64, 128 + c.toNat % 64]
  else if c.toNat < 65536 then
    [224 + c.toNat / 4096, 128 + c.toNat / 64 % 64, 128 + c.toNat % 64]
  else
    [240 + c.toNat / 262144, 128 + c.toNat / 4096 % 64, 128 + c.toNat / 64 % 64,
      128 + c.toNat % 64]

/-- Upper-case hexadecimal digit for a value below 16. -/
def hexDigit (n : Nat) : Char :=
  Char.ofNat (if n < 10 then 48 + n else 55 + n)

/-- Percent-escape of one byte: a percent sign and two hex digits. -/
def byteHex (b : Nat) : List Char :=
  [Char.ofNat 37, hexDigit (b / 16), hexDigit (b % 16)]

/-- `encodeURIComponent` on one character. -/
def encChar (c : Char) : List Char :=
  if isUnreservedChar c then [c] else (utf8Bytes c).flatMap byteHex

/-- `encodeURIComponent` on a character list. -/
def encL (s : List Char) : List Char :=
  s.flatMap encChar

/-- `encodeURIComponent` on a string. -/
def encodeURIComponent (s : String) : String :=
  ⟨encL s.data⟩

/-- One `k=v` fragment as pushed by `stringifyQuery` and by `sendForm`:
the encoded key, an equals sign, the encoded value. -/
def pairStr (k v : String) : String :=
  ⟨encL k.data ++ Char.ofNat 61 :: encL v.data⟩

/-- Join character lists with a separator character between them. -/
def joinWith (sep : Char) : List (List Char) → List Char
  | [] => []
  | [p] => p
  | p :: q :: rest => p ++ sep :: joinWith sep (q :: rest)

/-- `Array.prototype.join` on a list of strings, at the character level. -/
def joinSep (sep : Char) (parts : List String) : String :=
  ⟨joinWith sep (parts.map String.data)⟩

/-- `String.prototype.toUpperCase`, modelled character-wise. -/
def jsToUpperCase (s : String) : String :=
  ⟨s.data.map Char.toUpper⟩

/-- The fragments pushed by the loop of `stringifyQuery`, in push order: one
per array element for an array value, one for a scalar value, each value
coerced with `String(...)` and percent-encoded. -/
def queryParts (object : List (String × QVal)) : List String :=
  object.flatMap fun kv =>
    match kv.2 with
    | .arr l => l.map fun x => pairStr kv.1 x.jsString
    | .scalar p => [pairStr kv.1 p.jsString]

/-- `stringifyQuery` from src/ajax.js: the fragments joined with ampersands. -/
def stringifyQuery (object : List (String × QVal)) : String :=
  joinSep (Char.ofNat 38) (queryParts object)

/-! ### The request dispatcher (`sendRequest`) -/

/-- A request entity: a string, or the structured multipart body built by
`new FormData(form)` which we keep opaque, tagged by the form it came from. -/
inductive Entity (F : Type) where
  | str (s : String)
  | formData (form : F)
deriving DecidableEq

/-- JavaScript truthiness of an entity value: an empty string is falsy, a
FormData object is always truthy. -/
def Entity.truthy {F : Type} : Entity F → Bool
  | .str s => s ≠ ""
  | .formData _ => true

/-- Everything observable about the XMLHttpRequest a call configures and
sends: the `open` arguments, the headers set by `setRequestHeader` in call
order, and the entity passed to `send` (none when `send()` was called with
no argument). -/
structure XhrState (F : Type) where
  method : String
  url : String
  headersSet : List (String × String)
  body : Option (Entity F)
deriving DecidableEq

/-- Own enumerable pairs of the `headers` argument, as header name/value
strings (values reach `setRequestHeader` and coerce to strings). -/
def headerPairs (headers : JsArg) : List (String × String) :=
  match headers with
  | .obj l => l.map fun kv => (kv.1, kv.2.jsString)
  | _ => []

/-- `sendRequest(method, path, headers, entity, type)` from src/ajax.js:
opens the request, always sets `Accept: application/json`, sets each caller
header, sets `Content-Type` from `type` when `type` is truthy, and sends
`entity` when it is truthy, else sends without a body. -/
def sendRequest (F : Type) (method path : String) (headers : JsArg)
    (entity : Option (Entity F)) (ctype : Option String) : XhrState F :=
  { method := method
    url := path
    headersSet :=
      ("Accept", "application/json") :: headerPairs headers ++
        (match ctype with
         | some t => if t ≠ "" then [("Content-Type", t)] else []
         | none => [])
    body :=
      match entity with
      | some e => if e.truthy then some e else none
      | none => none }

/-! ### Forms

A form control is modelled by its `type`, `name`, `value` and (for selects)
its option list; a form by its `enctype`, `method` and `action` attributes
and its control list in document order.  The named collection access
`form.elements._method` is modelled as the value of the first control named
`_method` (the source code treats the access result as a string value). -/

structure OptionEl where
  value : String
  selected : Bool
deriving DecidableEq

structure Control where
  type : String
  name : String
  value : String
  options : List OptionEl
deriving DecidableEq

structure Form where
  enctype : String
  method : String
  action : String
  elements : List Control
deriving DecidableEq

/-- The value of the control named `_method`, when such a control exists. -/
def methodOverrideValue (form : Form) : Option String :=
  (form.elements.find? fun e => e.name = "_method").map Control.value

/-- The request state type used by the public API. -/
abbrev Xhr := XhrState Form

/-- `sendMultipartForm` from src/ajax.js: the method is the upper-cased
`_method` control value when that value is truthy, else POST; the entity is
the structured multipart body of the form. -/
def sendMultipartForm (form : Form) : Xhr :=
  let method :=
    match methodOverrideValue form with
    | some v => if v ≠ "" then jsToUpperCase v else "POST"
    | none => "POST"
  sendRequest Form method form.action .null (some (.formData form))
    (some "multipart/form-data")

/-! ### JSON.stringify

Modelled from the standard JSON text serialization: object members in key
insertion order, members with undefined values dropped, strings quoted with
backslash escapes for the quote and backslash characters (control-character
escapes are not modelled since no claim depends on them). -/

def jsonEscapeChar (c : Char) : List Char :=
  if c = Char.ofNat 34 then [Char.ofNat 92, Char.ofNat 34]
  else if c = Char.ofNat 92 then [Char.ofNat 92, Char.ofNat 92]
  else [c]

def jsonQuote (s : String) : String :=
  ⟨Char.ofNat 34 :: s.data.flatMap jsonEscapeChar ++ [Char.ofNat 34]⟩

/-- JSON rendering of a primitive in value position inside an array, where
undefined renders as null. -/
def JsPrim.jsonLit : JsPrim → String
  | .str s => jsonQuote s
  | .num n => toString n
  | .bool b => if b then "true" else "false"
  | .null => "null"
  | .undefined => "null"

def QVal.jsonLit : QVal → String
  | .scalar p => p.jsonLit
  | .arr l => "[" ++ String.intercalate "," (l.map JsPrim.jsonLit) ++ "]"

/-- `JSON.stringify` on a plain object. -/
def jsonStringifyObj (l : List (String × QVal)) : String :=
  "\x7b" ++
    String.intercalate ","
      (l.filterMap fun kv =>
        match kv.2 with
        | .scalar .undefined => none
        | v => some (jsonQuote kv.1 ++ ":" ++ v.jsonLit)) ++
    "\x7d"

/-! ### The JSON and query payload strategies and the public API -/

/-- `sendJSON(method, path, data, headers)` from src/ajax.js: when `data` is
a non-null object (the `obj` case of `JsArg`), dispatch with the serialized
entity and content type `application/json`; otherwise dispatch with no
entity and no content type argument. -/
def sendJSON (method path : String) (data headers : JsArg) : Xhr :=
  match data with
  | .obj l =>
      sendRequest Form method path headers (some (.str (jsonStringifyObj l)))
        (some "application/json")
  | _ => sendRequest Form method path headers none none

/-- `send(method, path, data, headers)` from src/ajax.js: when `data` is a
non-null object, append a question mark and the stringified query to the
path; dispatch with no entity and no content type argument. -/
def send (method path : String) (data headers : JsArg) : Xhr :=
  match data with
  | .obj l =>
      sendRequest Form method (path ++ "?" ++ stringifyQuery l) headers none none
  | _ => sendRequest Form method path headers none none

/-- `exports.putJSON` from src/ajax.js. -/
def putJSON (path : String) (data headers : JsArg) : Xhr :=
  sendJSON "PUT" path data headers

/-- `exports.postJSON` from src/ajax.js. -/
def postJSON (path : String) (data headers : JsArg) : Xhr :=
  sendJSON "POST" path data headers

/-- `exports.del` from src/ajax.js.  The source calls
`send` with only the method DELETE, the path and the headers: the caller headers land in the data slot of
`send` and the data argument is dropped; the headers slot of `send` is the
missing fourth argument, that is undefined. -/
def del (path : String) (data headers : JsArg) : Xhr :=
  send "DELETE" path headers .undefined

/-- `exports.get` from src/ajax.js.  Same argument slip as `del`: the source
calls `send` with only the method GET, the path and the headers. -/
def get (path : String) (data headers : JsArg) : Xhr :=
  send "GET" path headers .undefined

/-! ### The response classifier (the load listener inside `makeRequest`)

`JSON.parse` is a host builtin; the classifier is parametrised by a parse
function into an arbitrary parsed-value type `J`, where `parse t = none`
models a parse that throws. -/

/-- The settled state of the deferred: `resolve` or `reject` with the
arguments the source passes. -/
inductive Settle (J : Type) where
  | resolve (status : Nat) (body : Option J)
  | reject (status : Nat) (body : Option J) (reason : Option String)
deriving DecidableEq

/-- The load listener installed by `makeRequest` in src/ajax.js: normalize
status 1223 to 204; when the response text is non-empty, parse it, rejecting
with reason "parseerror" on failure; then reject without a reason when the
status is at least 400, else resolve. -/
def makeRequestOnLoad {J : Type} (parse : String → Option J) (status : Nat)
    (responseText : String) : Settle J :=
  let st := if status = 1223 then 204 else status
  if responseText ≠ "" then
    match parse responseText with
    | none => .reject st none (some "parseerror")
    | some v => if 400 ≤ st then .reject st (some v) none else .resolve st (some v)
  else
    if 400 ≤ st then .reject st none none else .resolve st none

/-! ### `sendForm` and `canSendForm` -/

/-- The fragment appended to `qs` by the loop of `sendForm` for one control:
for a select-multiple control one `enc(name)=enc(value)` fragment per
selected option, for any other control one such fragment unconditionally.
The source appends fragments with no separator between them. -/
def controlQS (e : Control) : String :=
  if e.type = "select-multiple" then
    ⟨e.options.flatMap fun o =>
      if o.selected then (pairStr e.name o.value).data else []⟩
  else pairStr e.name e.value

/-- The loop of `sendForm`: returns none when a file control is reached (the
source returns a multipart send from inside the loop), else the concatenated
fragments of all controls. -/
def buildQS : List Control → Option String
  | [] => some ""
  | e :: rest =>
    if e.type = "file" then none
    else (buildQS rest).map fun s => controlQS e ++ s

/-- `exports.sendForm` from src/ajax.js.  Returns none when control falls
off the end of the method switch (the source returns undefined there). -/
def sendForm (form : Form) : Option Xhr :=
  if form.enctype = "multipart/form-data" then some (sendMultipartForm form)
  else
    match buildQS form.elements with
    | none => some (sendMultipartForm form)
    | some qs =>
      let method :=
        jsToUpperCase
          (match methodOverrideValue form with
            | some v => if v ≠ "" then v else form.method
            | none => form.method)
      if method = "POST" ∨ method = "PUT" then
        some (sendRequest Form method form.action .null (some (.str qs))
          (some "application/x-www-form-urlencoded"))
      else if method = "DELETE" ∨ method = "GET" then
        some (sendRequest Form method (form.action ++ "?" ++ qs) .undefined none none)
      else none

/-- The control loop of `canSendForm`: some false when a file control is
found, none when the loop ends (the source falls off the function with no
return statement there). -/
def fileLoopCheck : List Control → Option Bool
  | [] => none
  | e :: rest => if e.type = "file" then some false else fileLoopCheck rest

/-- `exports.canSendForm` from src/ajax.js, parametrised by whether the host
environment provides the FormData constructor.  Returns none when the source
returns undefined (the fallthrough with no return statement). -/
def canSendForm (formDataAvailable : Bool) (form : Form) : Option Bool :=
  if formDataAvailable then some true
  else if form.enctype = "multipart/form-data" then some false
  else fileLoopCheck form.elements

/-! ### Decoding a query string

The decoder is not part of the source; it is the standard inverse used to
state the round-trip property: split on ampersands, split each piece at the
first equals sign, percent-decode each side (UTF-8 bytes from percent
escapes, other characters kept). -/

/-- Value of one hexadecimal digit character. -/
def hexVal (c : Char) : Option Nat :=
  if 48 ≤ c.toNat ∧ c.toNat ≤ 57 then some (c.toNat - 48)
  else if 65 ≤ c.toNat ∧ c.toNat ≤ 70 then some (c.toNat - 55)
  else if 97 ≤ c.toNat ∧ c.toNat ≤ 102 then some (c.toNat - 87)
  else none

/-- Turn a percent-encoded character list into a byte list: a percent sign
followed by two hex digits becomes one byte, any other character contributes
its UTF-8 bytes. -/
def percentDecodeBytes : List Char → List Nat
  | [] => []
  | c :: rest =>
    if c = Char.ofNat 37 then
      match rest with
      | h1 :: h2 :: rest2 =>
        match hexVal h1, hexVal h2 with
        | some a, some b => (16 * a + b) :: percentDecodeBytes rest2
        | _, _ => c.toNat :: percentDecodeBytes (h1 :: h2 :: rest2)
      | [h1] => c.toNat :: percentDecodeBytes [h1]
      | [] => [c.toNat]
    else utf8Bytes c ++ percentDecodeBytes rest
termination_by l => l.length
decreasing_by all_goals { simp only [List.length_cons]; omega }

/-- Total length in bytes of a UTF-8 sequence, from its leading byte. -/
def utf8Len (b : Nat) : Nat :=
  if b < 128 then 1 else if b < 224 then 2 else if b < 240 then 3 else 4

/-- Code point of a UTF-8 sequence from its leading byte and the bytes after
it (missing continuation bytes read as zero, which never arises on encoder
output). -/
def utf8Val (b : Nat) (rest : List Nat) : Nat :=
  if b < 128 then b
  else if b < 224 then (b - 192) * 64 + (rest.headD 0 - 128)
  else if b < 240 then
    (b - 224) * 4096 + (rest.headD 0 - 128) * 64 + ((rest.drop 1).headD 0 - 128)
  else
    (b - 240) * 262144 + (rest.headD 0 - 128) * 4096 +
      ((rest.drop 1).headD 0 - 128) * 64 + ((rest.drop 2).headD 0 - 128)

/-- Decode a UTF-8 byte list into characters (total: malformed input is
decoded arbitrarily, which never arises on encoder output). -/
def utf8Decode : List Nat → List Char
  | [] => []
  | b :: rest =>
      Char.ofNat (utf8Val b rest) :: utf8Decode (rest.drop (utf8Len b - 1))
termination_by l => l.length
decreasing_by simp only [List.length_cons, List.length_drop]; omega

/-- `decodeURIComponent` on a character list. -/
def decodeURIComponentL (s : List Char) : List Char :=
  utf8Decode (percentDecodeBytes s)

/-- Split a character list on a separator character. -/
def splitChar (sep : Char) : List Char → List (List Char)
  | [] => [[]]
  | c :: rest =>
    if c = sep then [] :: splitChar sep rest
    else
      match splitChar sep rest with
      | h :: t => (c :: h) :: t
      | [] => [[c]]

/-- Split a character list at the first equals sign. -/
def breakEq : List Char → List Char × List Char
  | [] => ([], [])
  | c :: rest =>
    if c = Char.ofNat 61 then ([], rest)
    else
      let p := breakEq rest
      (c :: p.1, p.2)

/-- Decode a query string into its name/value pairs. -/
def parseQuery (s : String) : List (String × String) :=
  if s.data = [] then []
  else
    (splitChar (Char.ofNat 38) s.data).map fun piece =>
      let p := breakEq piece
      (⟨decodeURIComponentL p.1⟩, ⟨decodeURIComponentL p.2⟩)

/-! ### Statements taken from the specification text

These definitions follow the words of the specification (not the source);
the theorems below compare them with the embedded source functions. -/

/-- Claim C2, stated from the spec: normalize 1223 to 204 first; a non-empty
body that does not parse gives Failure with reasonTag parseerror and null
body, regardless of status; otherwise status at least 400 gives Failure with
the parsed body (null for an empty body) and no tag; otherwise Success. -/
def classifySpec {J : Type} (parse : String → Option J) (status : Nat)
    (responseText : String) : Settle J :=
  let st := if status = 1223 then 204 else status
  if responseText ≠ "" ∧ (parse responseText).isNone then
    .reject st none (some "parseerror")
  else
    let body := if responseText = "" then none else parse responseText
    if 400 ≤ st then .reject st body none else .resolve st body

/-- Claim C3, stated from the spec: for a non-null object the dispatched
request carries the JSON serialization as entity and content type
`application/json`; otherwise it carries no entity and no content type set
by the strategy. -/
def jsonDispatchSpec (method path : String) (data headers : JsArg) : Xhr :=
  match data with
  | .obj l =>
      { method := method
        url := path
        headersSet :=
          ("Accept", "application/json") :: headerPairs headers ++
            [("Content-Type", "application/json")]
        body := some (.str (jsonStringifyObj l)) }
  | _ =>
      { method := method
        url := path
        headersSet := ("Accept", "application/json") :: headerPairs headers
        body := none }

/-- Claim C5, stated from the spec: the upper-cased `_method` control value
when such a control exists, else the upper-cased declared method. -/
def specMethodC5 (form : Form) : String :=
  match methodOverrideValue form with
  | some v => jsToUpperCase v
  | none => jsToUpperCase form.method

/-- Whether `sendForm` takes the multipart path: declared multipart enctype
or some file control. -/
def takesMultipartPath (form : Form) : Prop :=
  form.enctype = "multipart/form-data" ∨ ∃ e ∈ form.elements, e.type = "file"

instance (form : Form) : Decidable (takesMultipartPath form) := by
  unfold takesMultipartPath; infer_instance

/-- Claim C5 as amended: a `_method` control with a non-empty value wins
(upper-cased); with no such value the multipart path defaults to POST while
the non-multipart path uses the upper-cased declared method attribute. -/
def methodAmended (form : Form) : String :=
  match methodOverrideValue form with
  | some v =>
      if v ≠ "" then jsToUpperCase v
      else if takesMultipartPath form then "POST" else jsToUpperCase form.method
  | none =>
      if takesMultipartPath form then "POST" else jsToUpperCase form.method

/-- A mapping with string scalar values, as a query object. -/
def toQueryBag (bag : List (String × String)) : List (String × QVal) :=
  bag.map fun kv => (kv.1, QVal.scalar (.str kv.2))

/-! ### Concrete inputs used by witnesses and counterexamples -/

/-- A query object holding one string field. -/
def dataA1 : JsArg := .obj [("a", .scalar (.str "1"))]

/-- Two plain text controls. -/
def formTwoText : Form :=
  { enctype := "", method := "post", action := "/a",
    elements := [⟨"text", "a", "1", []⟩, ⟨"text", "b", "2", []⟩] }

/-- A multipart-enctype form whose declared method is get, with no
`_method` control. -/
def formMultiGet : Form :=
  { enctype := "multipart/form-data", method := "get", action := "/a",
    elements := [⟨"text", "a", "1", []⟩] }

/-- A non-multipart form with one text control, declared method post. -/
def formPlainPost : Form :=
  { enctype := "", method := "post", action := "/a",
    elements := [⟨"text", "n", "v", []⟩] }

/-- A form containing a file control. -/
def formWithFile : Form :=
  { enctype := "", method := "post", action := "/a",
    elements := [⟨"text", "n", "v", []⟩, ⟨"file", "f", "", []⟩] }

/-- A non-multipart form whose declared method is patch. -/
def formPatch : Form :=
  { enctype := "", method := "patch", action := "/a",
    elements := [⟨"text", "a", "1", []⟩] }

/-- The request `sendForm` dispatches for `formPlainPost` (used to state a
closed witness). -/
def xhrPlainPost : Xhr :=
  match sendForm formPlainPost with
  | some x => x
  | none => sendRequest Form "" "" .undefined none none

/-! ## Lemmas about percent encoding and decoding -/

lemma charToNatLt (c : Char) : c.toNat < 1114112 := by
  rcases c.valid with h | ⟨h1, h2⟩ <;> simp [Char.toNat] <;> omega

lemma char_ne_of_toNat_ne {c d : Char} (h : c.toNat ≠ d.toNat) : c ≠ d :=
  fun he => h (he ▸ rfl)

lemma hexVal_hexDigit : ∀ n < 16, hexVal (hexDigit n) = some n := by decide

lemma hexDigit_toNat_ne : ∀ n < 16,
    (hexDigit n).toNat ≠ 38 ∧ (hexDigit n).toNat ≠ 61 := by decide

lemma unreserved_props {c : Char} (h : isUnreservedChar c = true) :
    c.toNat < 128 ∧ c.toNat ≠ 37 ∧ c.toNat ≠ 38 ∧ c.toNat ≠ 61 := by
  simp [isUnreservedChar] at h
  omega

lemma utf8Bytes_lt (c : Char) : ∀ b ∈ utf8Bytes c, b < 256 := by
  intro b hb
  have hv := charToNatLt c
  unfold utf8Bytes at hb
  split_ifs at hb <;> simp at hb <;> omega

lemma pdb_cons_ne (c : Char) (t : List Char) (h : c ≠ Char.ofNat 37) :
    percentDecodeBytes (c :: t) = utf8Bytes c ++ percentDecodeBytes t := by
  match t with
  | [] => simp [percentDecodeBytes, h]
  | [a] => simp [percentDecodeBytes, h]
  | a :: b :: t' => simp [percentDecodeBytes, h]

lemma pdb_byteHex (b : Nat) (hb : b < 256) (t : List Char) :
    percentDecodeBytes (byteHex b ++ t) = b :: percentDecodeBytes t := by
  have h1 := hexVal_hexDigit (b / 16) (by omega)
  have h2 := hexVal_hexDigit (b % 16) (by omega)
  simp [byteHex, percentDecodeBytes, h1, h2]
  omega

lemma pdb_flatMap_byteHex (bs : List Nat) (hb : ∀ b ∈ bs, b < 256)
    (t : List Char) :
    percentDecodeBytes (bs.flatMap byteHex ++ t) = bs ++ percentDecodeBytes t := by
  induction bs with
  | nil => simp
  | cons b bs ih =>
      have h1 : b < 256 := hb b (List.mem_cons_self b bs)
      have h2 : ∀ x ∈ bs, x < 256 := fun x hx => hb x (List.mem_cons_of_mem _ hx)
      simp only [List.flatMap_cons, List.append_assoc]
      rw [pdb_byteHex b h1, ih h2]
      rfl

lemma pdb_encChar (c : Char) (t : List Char) :
    percentDecodeBytes (encChar c ++ t) = utf8Bytes c ++ percentDecodeBytes t := by
  by_cases h : isUnreservedChar c
  · have hc : c ≠ Char.ofNat 37 :=
      char_ne_of_toNat_ne (by have := (unreserved_props h).2.1; simpa using this)
    simp only [encChar, if_pos h, List.singleton_append]
    exact pdb_cons_ne c t hc
  · simp only [encChar, if_neg h]
    exact pdb_flatMap_byteHex _ (utf8Bytes_lt c) t

lemma utf8Decode_bytes (c : Char) (bs : List Nat) :
    utf8Decode (utf8Bytes c ++ bs) = c :: utf8Decode bs := by
  have hv := charToNatLt c
  unfold utf8Bytes
  split_ifs with h1 h2 h3
  · simp only [List.cons_append, List.nil_append]
    rw [utf8Decode]
    simp only [utf8Val, utf8Len, if_pos h1]
    rw [Char.ofNat_toNat]
    simp
  · have e1 : ¬(192 + c.toNat / 64 < 128) := by omega
    have e2 : 192 + c.toNat / 64 < 224 := by omega
    simp only [List.cons_append, List.nil_append]
    rw [utf8Decode]
    simp only [utf8Val, utf8Len, if_neg e1, if_pos e2, List.headD_cons]
    rw [show (192 + c.toNat / 64 - 192) * 64 + (128 + c.toNat % 64 - 128)
        = c.toNat by omega, Char.ofNat_toNat]
    simp
  · have e1 : ¬(224 + c.toNat / 4096 < 128) := by omega
    have e2 : ¬(224 + c.toNat / 4096 < 224) := by omega
    have e3 : 224 + c.toNat / 4096 < 240 := by omega
    simp only [List.cons_append, List.nil_append]
    rw [utf8Decode]
    simp only [utf8Val, utf8Len, if_neg e1, if_neg e2, if_pos e3,
      List.headD_cons, List.drop_succ_cons, List.drop_zero]
    rw [show (224 + c.toNat / 4096 - 224) * 4096 +
        (128 + c.toNat / 64 % 64 - 128) * 64 + (128 + c.toNat % 64 - 128)
        = c.toNat by omega, Char.ofNat_toNat]
  · have e1 : ¬(240 + c.toNat / 262144 < 128) := by omega
    have e2 : ¬(240 + c.toNat / 262144 < 224) := by omega
    have e3 : ¬(240 + c.toNat / 262144 < 240) := by omega
    simp only [List.cons_append, List.nil_append]
    rw [utf8Decode]
    simp only [utf8Val, utf8Len, if_neg e1, if_neg e2, if_neg e3,
      List.headD_cons, List.drop_succ_cons, List.drop_zero]
    rw [show (240 + c.toNat / 262144 - 240) * 262144 +
        (128 + c.toNat / 4096 % 64 - 128) * 4096 +
        (128 + c.toNat / 64 % 64 - 128) * 64 + (128 + c.toNat % 64 - 128)
        = c.toNat by omega, Char.ofNat_toNat]

lemma decode_encL (s : List Char) : decodeURIComponentL (encL s) = s := by
  induction s with
  | nil => simp [decodeURIComponentL, encL, percentDecodeBytes, utf8Decode]
  | cons c s ih =>
      unfold decodeURIComponentL at ih ⊢
      rw [encL, List.flatMap_cons]
      rw [show (s.flatMap encChar) = encL s from rfl]
      rw [pdb_encChar, utf8Decode_bytes, ih]

/-! ## Lemmas about splitting and joining -/

lemma encL_mem_ne (s : List Char) :
    ∀ c ∈ encL s, c ≠ Char.ofNat 38 ∧ c ≠ Char.ofNat 61 := by
  intro c hc
  rw [encL, List.mem_flatMap] at hc
  obtain ⟨a, _, hca⟩ := hc
  rw [encChar] at hca
  by_cases h : isUnreservedChar a
  · rw [if_pos h, List.mem_singleton] at hca
    subst hca
    obtain ⟨_, _, h38, h61⟩ := unreserved_props h
    exact ⟨char_ne_of_toNat_ne (by simpa using h38),
      char_ne_of_toNat_ne (by simpa using h61)⟩
  · rw [if_neg h, List.mem_flatMap] at hca
    obtain ⟨b, hb, hcb⟩ := hca
    have hb256 := utf8Bytes_lt a b hb
    rw [byteHex] at hcb
    simp only [List.mem_cons, List.mem_singleton, List.not_mem_nil, or_false] at hcb
    rcases hcb with h37 | hdig | hdig
    · subst h37
      exact ⟨by decide, by decide⟩
    all_goals {
      subst hdig
      first
      | exact ⟨char_ne_of_toNat_ne (by
            have := hexDigit_toNat_ne (b / 16) (by omega)
            simpa using this.1),
          char_ne_of_toNat_ne (by
            have := hexDigit_toNat_ne (b / 16) (by omega)
            simpa using this.2)⟩
      | exact ⟨char_ne_of_toNat_ne (by
            have := hexDigit_toNat_ne (b % 16) (by omega)
            simpa using this.1),
          char_ne_of_toNat_ne (by
            have := hexDigit_toNat_ne (b % 16) (by omega)
            simpa using this.2)⟩ }

lemma splitChar_no_sep (sep : Char) (p : List Char) (h : ∀ c ∈ p, c ≠ sep) :
    splitChar sep p = [p] := by
  induction p with
  | nil => rfl
  | cons c rest ih =>
      have hc : c ≠ sep := h c (List.mem_cons_self c rest)
      rw [splitChar, if_neg hc, ih fun x hx => h x (List.mem_cons_of_mem _ hx)]

lemma splitChar_append (sep : Char) (p r : List Char) (h : ∀ c ∈ p, c ≠ sep) :
    splitChar sep (p ++ sep :: r) = p :: splitChar sep r := by
  induction p with
  | nil =>
      rw [List.nil_append, splitChar, if_pos rfl]
  | cons c rest ih =>
      have hc : c ≠ sep := h c (List.mem_cons_self c rest)
      rw [List.cons_append, splitChar, if_neg hc,
        ih fun x hx => h x (List.mem_cons_of_mem _ hx)]

lemma splitChar_joinWith (sep : Char) (pieces : List (List Char))
    (hne : pieces ≠ []) (h : ∀ p ∈ pieces, ∀ c ∈ p, c ≠ sep) :
    splitChar sep (joinWith sep pieces) = pieces := by
  induction pieces with
  | nil => cases hne rfl
  | cons p rest ih =>
      cases rest with
      | nil =>
          rw [joinWith]
          exact splitChar_no_sep sep p (h p (List.mem_cons_self p []))
      | cons q rest2 =>
          rw [joinWith,
            splitChar_append sep p _ (h p (List.mem_cons_self p _)),
            ih (by simp) fun x hx => h x (List.mem_cons_of_mem _ hx)]

lemma breakEq_append (k v : List Char) (h : ∀ c ∈ k, c ≠ Char.ofNat 61) :
    breakEq (k ++ Char.ofNat 61 :: v) = (k, v) := by
  induction k with
  | nil => rw [List.nil_append, breakEq, if_pos rfl]
  | cons c rest ih =>
      have hc : c ≠ Char.ofNat 61 := h c (List.mem_cons_self c rest)
      rw [List.cons_append, breakEq, if_neg hc,
        ih fun x hx => h x (List.mem_cons_of_mem _ hx)]

/-! ## The query round trip (claim C8) -/

lemma queryParts_toQueryBag (bag : List (String × String)) :
    queryParts (toQueryBag bag) = bag.map fun kv => pairStr kv.1 kv.2 := by
  induction bag with
  | nil => rfl
  | cons kv rest ih =>
      simp only [toQueryBag, List.map_cons, queryParts, List.flatMap_cons] at ih ⊢
      rw [ih]
      rfl

lemma pairStr_data (k v : String) :
    (pairStr k v).data = encL k.data ++ Char.ofNat 61 :: encL v.data := rfl

lemma pairStr_mem_ne (k v : String) :
    ∀ c ∈ (pairStr k v).data, c ≠ Char.ofNat 38 := by
  intro c hc
  rw [pairStr_data] at hc
  rcases List.mem_append.mp hc with h | h
  · exact (encL_mem_ne _ c h).1
  · rcases List.mem_cons.mp h with h61 | h
    · subst h61; decide
    · exact (encL_mem_ne _ c h).1

lemma parse_one_pair (k v : String) :
    ((⟨decodeURIComponentL (breakEq (pairStr k v).data).1⟩ : String),
      (⟨decodeURIComponentL (breakEq (pairStr k v).data).2⟩ : String)) = (k, v) := by
  rw [pairStr_data, breakEq_append _ _ fun c hc => (encL_mem_ne _ c hc).2]
  simp only [decode_encL]

/-- Claim C8: for every mapping whose own values are all scalars, decoding
the query string produced by the query encoder reproduces the original key
to value pairs exactly (the list of decoded pairs equals the original list,
which subsumes the order-independent set equality of the claim). -/
theorem stringifyQuery_roundtrip (bag : List (String × String)) :
    parseQuery (stringifyQuery (toQueryBag bag)) = bag := by
  cases bag with
  | nil => rfl
  | cons kv rest =>
      rw [stringifyQuery, queryParts_toQueryBag, joinSep]
      have hpieces :
          ((kv :: rest).map fun p => pairStr p.1 p.2).map String.data
            = (kv :: rest).map fun p => (pairStr p.1 p.2).data := by
        rw [List.map_map]; rfl
      rw [parseQuery]
      have hne :
          joinWith (Char.ofNat 38)
            ((((kv :: rest).map fun p => pairStr p.1 p.2).map String.data)) ≠ [] := by
        rw [hpieces]
        cases rest with
        | nil =>
            rw [List.map_cons, List.map_nil, joinWith, pairStr_data]
            simp
        | cons q r =>
            rw [List.map_cons, List.map_cons, joinWith, pairStr_data]
            simp
      rw [if_neg (by simpa using hne)]
      rw [show (String.mk (joinWith (Char.ofNat 38)
          ((((kv :: rest).map fun p => pairStr p.1 p.2)).map String.data))).data
          = joinWith (Char.ofNat 38)
            ((((kv :: rest).map fun p => pairStr p.1 p.2)).map String.data)
          from rfl]
      rw [hpieces]
      rw [splitChar_joinWith _ _ (by simp) (by
        intro p hp
        rw [List.mem_map] at hp
        obtain ⟨a, _, ha⟩ := hp
        subst ha
        exact pairStr_mem_ne a.1 a.2)]
      rw [List.map_map]
      have : ∀ l : List (String × String),
          l.map ((fun piece =>
              ((⟨decodeURIComponentL (breakEq piece).1⟩ : String),
                (⟨decodeURIComponentL (breakEq piece).2⟩ : String))) ∘
            fun p => (pairStr p.1 p.2).data) = l := by
        intro l
        induction l with
        | nil => rfl
        | cons x xs ih =>
            rw [List.map_cons, ih, Function.comp_apply]
            rw [parse_one_pair]
      exact this (kv :: rest)

/-! ## The remaining claims -/

/-- Claim C1: the spec says `get` and `del` append the URL-encoded query of
`data` to the path and dispatch with no entity.  The code drops `data`: it
passes the caller headers into the data slot of `send`.  At the concrete
input below the dispatched path is bare `/p` although the encoder would
have produced `a=1`; passing the same object in the headers slot makes it
reach the query string instead. -/
theorem get_del_discard_data :
    (get "/p" dataA1 .undefined).url = "/p" ∧
    (del "/p" dataA1 .undefined).url = "/p" ∧
    (get "/p" dataA1 .undefined).body = none ∧
    (del "/p" dataA1 .undefined).body = none ∧
    stringifyQuery [("a", .scalar (.str "1"))] = "a=1" ∧
    (get "/p" .undefined dataA1).url = "/p?a=1" ∧
    ("/p" : String) ≠ "/p?a=1" := by
  refine ⟨rfl, rfl, rfl, rfl, by decide, by decide, by decide⟩

/-- Claim C2: the load listener normalizes status 1223 to 204, rejects a
non-empty unparsable body with reasonTag parseerror regardless of status,
rejects normalized statuses of at least 400 with the parsed (or null) body
and no tag, and resolves otherwise — exactly the classification written in
the spec. -/
theorem load_classification_spec {J : Type} (parse : String → Option J)
    (status : Nat) (responseText : String) :
    makeRequestOnLoad parse status responseText
      = classifySpec parse status responseText := by
  unfold makeRequestOnLoad classifySpec
  by_cases ht : responseText = ""
  · subst ht; simp
  · simp only [ht, ne_eq, not_false_iff, if_pos, true_and, if_neg]
    cases hp : parse responseText with
    | none => simp [hp]
    | some v => simp [hp]

lemma jsonStringifyObj_ne_empty (l : List (String × QVal)) :
    jsonStringifyObj l ≠ "" := by
  unfold jsonStringifyObj
  intro h
  have hd := congrArg String.data h
  rw [String.data_append, String.data_append] at hd
  simp at hd

/-- Claim C3: `putJSON` and `postJSON` dispatch a non-null object as the
JSON serialization with content type `application/json`, and dispatch with
no entity and no content type added otherwise — matching the spec-side
description `jsonDispatchSpec`. -/
theorem json_payload_strategy (path : String) (data headers : JsArg) :
    putJSON path data headers = jsonDispatchSpec "PUT" path data headers ∧
    postJSON path data headers = jsonDispatchSpec "POST" path data headers := by
  have key : ∀ m : String,
      sendJSON m path data headers = jsonDispatchSpec m path data headers := by
    intro m
    have hct : ("application/json" : String) ≠ "" := by decide
    cases data with
    | obj l =>
        have hne := jsonStringifyObj_ne_empty l
        unfold sendJSON jsonDispatchSpec sendRequest
        simp [Entity.truthy, hne, hct]
    | undefined => unfold sendJSON jsonDispatchSpec sendRequest; simp
    | null => unfold sendJSON jsonDispatchSpec sendRequest; simp
    | prim p => unfold sendJSON jsonDispatchSpec sendRequest; simp
  exact ⟨key "PUT", key "POST"⟩

/-- Claim C4: the spec says the pairs string joins `k=v` fragments with
ampersands.  The loop of `sendForm` concatenates the fragments with no
separator: for two text controls a=1 and b=2 the dispatched entity is
`a=1b=2`, not `a=1&b=2`. -/
theorem sendForm_pairs_not_ampersand_joined :
    sendForm formTwoText = some (sendRequest Form "POST" "/a" .null
      (some (.str "a=1b=2")) (some "application/x-www-form-urlencoded")) ∧
    ("a=1b=2" : String) ≠ "a=1&b=2" := by
  exact ⟨by decide, by decide⟩

lemma buildQS_none_iff (l : List Control) :
    buildQS l = none ↔ ∃ e ∈ l, e.type = "file" := by
  induction l with
  | nil => simp [buildQS]
  | cons e rest ih =>
      by_cases hf : e.type = "file"
      · simp [buildQS, hf]
      · simp [buildQS, hf, Option.map_eq_none, ih]

lemma sendMultipartForm_method (form : Form) (hm : takesMultipartPath form) :
    (sendMultipartForm form).method = methodAmended form := by
  unfold sendMultipartForm methodAmended sendRequest
  cases hov : methodOverrideValue form with
  | none => simp [hm]
  | some v => by_cases hv : v = "" <;> simp [hv, hm]

lemma nonmultipart_method (form : Form) (hnm : ¬takesMultipartPath form) :
    jsToUpperCase (match methodOverrideValue form with
      | some v => if v ≠ "" then v else form.method
      | none => form.method) = methodAmended form := by
  unfold methodAmended
  cases hov : methodOverrideValue form with
  | none => simp [hnm]
  | some v => by_cases hv : v = "" <;> simp [hv, hnm]

/-- Claim C5, counterexample: the claim says the effective method with no
`_method` control is the upper-cased declared method attribute, on the
multipart path too.  For a multipart-enctype form declared with method get
and no `_method` control, the dispatched method is POST, not GET. -/
theorem sendForm_method_counterexample :
    (sendForm formMultiGet).map XhrState.method = some "POST" ∧
    specMethodC5 formMultiGet = "GET" ∧
    ("POST" : String) ≠ "GET" := by
  exact ⟨by decide, by decide, by decide⟩

/-- Claim C5 as amended: whenever `sendForm` dispatches a request, its
method is the upper-cased `_method` value when that value is non-empty;
otherwise POST on the multipart path, and the upper-cased declared method
attribute on the non-multipart path. -/
theorem sendForm_effective_method (form : Form) (x : Xhr)
    (h : sendForm form = some x) : x.method = methodAmended form := by
  unfold sendForm at h
  by_cases he : form.enctype = "multipart/form-data"
  · rw [if_pos he] at h
    obtain rfl : sendMultipartForm form = x := Option.some_injective _ h
    exact sendMultipartForm_method form (Or.inl he)
  · rw [if_neg he] at h
    cases hb : buildQS form.elements with
    | none =>
        rw [hb] at h
        obtain rfl : sendMultipartForm form = x := Option.some_injective _ h
        exact sendMultipartForm_method form
          (Or.inr ((buildQS_none_iff form.elements).mp hb))
    | some qs =>
        rw [hb] at h
        have hnm : ¬takesMultipartPath form := by
          intro hm
          rcases hm with h1 | h2
          · exact he h1
          · rw [(buildQS_none_iff form.elements).mpr h2] at hb
            cases hb
        simp only at h
        split_ifs at h with h1 h2
        · obtain rfl : _ = x := Option.some_injective _ h
          exact nonmultipart_method form hnm
        · obtain rfl : _ = x := Option.some_injective _ h
          exact nonmultipart_method form hnm

/-- Witness for the amended claim C5 at a concrete non-multipart form. -/
theorem sendForm_effective_method_witness :
    sendForm formPlainPost = some xhrPlainPost ∧
    xhrPlainPost.method = methodAmended formPlainPost :=
  ⟨by decide, sendForm_effective_method formPlainPost xhrPlainPost (by decide)⟩

/-- Claim C6: the spec says `canSendForm` returns true when FormData is
unavailable but the form neither declares multipart encoding nor holds a
file control.  The code falls off the function there and returns undefined
(modelled as none), contradicting its own declared boolean return type.
When FormData is available it does return true. -/
theorem canSendForm_fallthrough_undefined :
    canSendForm false formPlainPost = none ∧
    canSendForm true formPlainPost = some true := by
  exact ⟨rfl, rfl⟩

/-- Claim C7: a form containing a file-type control always takes the
multipart path, whatever its declared enctype: `sendForm` dispatches the
structured multipart body of the form with content type
`multipart/form-data`. -/
theorem file_control_forces_multipart (form : Form)
    (h : (form.elements.any fun e => e.type = "file") = true) :
    sendForm form = some (sendMultipartForm form) ∧
    ("Content-Type", "multipart/form-data") ∈ (sendMultipartForm form).headersSet ∧
    (sendMultipartForm form).body = some (.formData form) := by
  have hex : ∃ e ∈ form.elements, e.type = "file" := by
    simpa using List.any_eq_true.mp h
  refine ⟨?_, ?_, ?_⟩
  · unfold sendForm
    by_cases he : form.enctype = "multipart/form-data"
    · rw [if_pos he]
    · rw [if_neg he, (buildQS_none_iff form.elements).mpr hex]
  · unfold sendMultipartForm sendRequest
    simp [headerPairs]
  · unfold sendMultipartForm sendRequest
    simp [Entity.truthy]

/-- Witness for claim C7 at a concrete form with a file control. -/
theorem file_control_forces_multipart_witness :
    (formWithFile.elements.any fun e => e.type = "file") = true ∧
    (sendForm formWithFile = some (sendMultipartForm formWithFile) ∧
      ("Content-Type", "multipart/form-data")
        ∈ (sendMultipartForm formWithFile).headersSet ∧
      (sendMultipartForm formWithFile).body = some (.formData formWithFile)) :=
  ⟨by decide, file_control_forces_multipart formWithFile (by decide)⟩

/-- Claim C9: the spec says a form whose effective method is none of POST,
PUT, DELETE or GET makes `sendForm` fail fast with an explicit invalid
method error.  The code has no default switch case and silently returns
undefined (modelled as none): here shown for a declared method of patch. -/
theorem sendForm_invalid_method_undefined :
    sendForm formPatch = none := by decide

/-- Claim C10: the query encoder does not skip keys whose value (or array
element) is null or undefined; it coerces them with string conversion to
the literal texts null and undefined and percent-encodes them like any
other value. -/
theorem stringifyQuery_null_undefined_coerced (pre post : List (String × QVal))
    (k : String) (l : List JsPrim) :
    queryParts (pre ++ (k, .scalar .null) :: post)
      = queryParts pre ++ pairStr k "null" :: queryParts post ∧
    queryParts (pre ++ (k, .scalar .undefined) :: post)
      = queryParts pre ++ pairStr k "undefined" :: queryParts post ∧
    queryParts [(k, .arr l)] = l.map (fun x => pairStr k x.jsString) ∧
    JsPrim.jsString .null = "null" ∧
    JsPrim.jsString .undefined = "undefined" := by
  refine ⟨?_, ?_, ?_, rfl, rfl⟩ <;>
    simp [queryParts, List.flatMap_append, List.flatMap_cons, JsPrim.jsString]

end Ajax
